import Mathlib

/-!
Verification of the `db` persistence layer of dex: the client credential
store (`db/client.go`) and the connector configuration store
(`db/connector_config.go`).

The Go code is shallowly embedded: each table is a list of row models, the
relational executor's `Get` / `Insert` / `Update` become pure functions on
that list, and a transaction becomes "compute a new table, keep the old one
on error" (Go's `defer tx.Rollback()` + `tx.Commit()`).  External library
collaborators (`encoding/json`, `encoding/base64`, `x/crypto/bcrypt`) are
modelled at their interface boundary by executable Lean functions whose
relevant behaviour (round-tripping, strictness, the 72-byte bcrypt
truncation called out in the source) matches the libraries.
-/

/-! ## JSON documents

Model of the structured documents stored in the `metadata` and `config`
text columns, together with the serializer (`json.Marshal`, which emits
compact JSON) and the parser (`json.Unmarshal`).  Numbers are modelled as
integers.  Mutual inductives (rather than a nested inductive) keep the
induction principles straightforward. -/

mutual

inductive Json where
  | null : Json
  | bool (b : Bool) : Json
  | num (n : Int) : Json
  | str (s : String) : Json
  | arr (elems : JsonArr) : Json
  | obj (fields : JsonObj) : Json
deriving DecidableEq

inductive JsonArr where
  | nil : JsonArr
  | cons (hd : Json) (tl : JsonArr) : JsonArr
deriving DecidableEq

inductive JsonObj where
  | nil : JsonObj
  | cons (key : String) (val : Json) (tl : JsonObj) : JsonObj
deriving DecidableEq

end

/-- Escape one character of a JSON string the way the Go encoder does:
quote and backslash get a backslash escape, control characters become a
`\u00XX` escape, everything else is emitted raw. -/
def escapeChar (c : Char) : List Char :=
  if c = '"' then ['\\', '"']
  else if c = '\\' then ['\\', '\\']
  else if c.toNat < 32 then
    ['\\', 'u', '0', '0', Nat.digitChar (c.toNat / 16), Nat.digitChar (c.toNat % 16)]
  else [c]

def printStringChars (s : String) : List Char :=
  '"' :: (s.data.map escapeChar).flatten ++ ['"']

/-- Decimal digits of a natural number, most significant first. -/
def printNatChars (n : Nat) : List Char :=
  if n = 0 then ['0'] else (Nat.digits 10 n).reverse.map Nat.digitChar

def printIntChars (n : Int) : List Char :=
  if n < 0 then '-' :: printNatChars n.natAbs else printNatChars n.toNat

mutual

/-- Compact serialization, exactly the shape `json.Marshal` produces
(no whitespace). -/
def printJsonChars : Json → List Char
  | .null => 'n' :: 'u' :: "ll".data
  | .bool true => 't' :: 'r' :: "ue".data
  | .bool false => 'f' :: 'a' :: "lse".data
  | .num n => printIntChars n
  | .str s => printStringChars s
  | .arr .nil => ['[', ']']
  | .arr (.cons h t) => '[' :: (printJsonChars h ++ printArrSep t)
  | .obj .nil => ['\x7b', '\x7d']
  | .obj (.cons k v t) =>
    '\x7b' :: (printStringChars k ++ ':' :: printJsonChars v ++ printObjSep t)

def printArrSep : JsonArr → List Char
  | .nil => [']']
  | .cons h t => ',' :: (printJsonChars h ++ printArrSep t)

def printObjSep : JsonObj → List Char
  | .nil => ['\x7d']
  | .cons k v t => ',' :: (printStringChars k ++ ':' :: printJsonChars v ++ printObjSep t)

end

mutual

/-- Fuel bound for the parser: one unit per value and per collection element. -/
def jsonSize : Json → Nat
  | .null => 1
  | .bool _ => 1
  | .num _ => 1
  | .str _ => 1
  | .arr a => 1 + jsonArrSize a
  | .obj o => 1 + jsonObjSize o

def jsonArrSize : JsonArr → Nat
  | .nil => 0
  | .cons h t => 1 + jsonSize h + jsonArrSize t

def jsonObjSize : JsonObj → Nat
  | .nil => 0
  | .cons _ v t => 1 + jsonSize v + jsonObjSize t

end

def isDigitChar (c : Char) : Bool :=
  decide ('0' ≤ c) && decide (c ≤ '9')

def hexVal (c : Char) : Option Nat :=
  if decide ('0' ≤ c) && decide (c ≤ '9') then some (c.toNat - 48)
  else if decide ('a' ≤ c) && decide (c ≤ 'f') then some (c.toNat - 97 + 10)
  else none

/-- Parse the body of a JSON string (the opening quote already consumed),
returning the decoded characters and the input after the closing quote. -/
def parseStringChars : List Char → Option (List Char × List Char)
  | [] => none
  | c :: rest =>
    if c = '"' then some ([], rest)
    else if c = '\\' then
      match rest with
      | [] => none
      | e :: rest2 =>
        if e = '"' || e = '\\' then
          (parseStringChars rest2).map (fun p => (e :: p.1, p.2))
        else if e = 'u' then
          match rest2 with
          | h1 :: h2 :: h3 :: h4 :: rest3 =>
            match hexVal h1, hexVal h2, hexVal h3, hexVal h4 with
            | some a, some b, some c2, some d =>
              (parseStringChars rest3).map
                (fun p => (Char.ofNat (((a * 16 + b) * 16 + c2) * 16 + d) :: p.1, p.2))
            | _, _, _, _ => none
          | _ => none
        else none
    else (parseStringChars rest).map (fun p => (c :: p.1, p.2))

/-- Consume a maximal run of decimal digits, accumulating their value. -/
def parseDigits : Nat → List Char → Nat × List Char
  | acc, [] => (acc, [])
  | acc, c :: rest =>
    if isDigitChar c then parseDigits (acc * 10 + (c.toNat - 48)) rest
    else (acc, c :: rest)

mutual

def parseValue : Nat → List Char → Option (Json × List Char)
  | 0, _ => none
  | _ + 1, [] => none
  | f + 1, c :: rest =>
    if c = 'n' then
      match rest with
      | 'u' :: 'l' :: 'l' :: r => some (.null, r)
      | _ => none
    else if c = 't' then
      match rest with
      | 'r' :: 'u' :: 'e' :: r => some (.bool true, r)
      | _ => none
    else if c = 'f' then
      match rest with
      | 'a' :: 'l' :: 's' :: 'e' :: r => some (.bool false, r)
      | _ => none
    else if c = '"' then
      (parseStringChars rest).map (fun p => (.str ⟨p.1⟩, p.2))
    else if c = '[' then
      if rest.head? = some ']' then some (.arr .nil, rest.tail)
      else (parseArrElems f rest).map (fun p => (.arr p.1, p.2))
    else if c = '\x7b' then
      if rest.head? = some '\x7d' then some (.obj .nil, rest.tail)
      else (parseObjFields f rest).map (fun p => (.obj p.1, p.2))
    else if c = '-' then
      match rest with
      | [] => none
      | d :: r2 =>
        if isDigitChar d then
          let p := parseDigits (d.toNat - 48) r2
          some (.num (-(p.1 : Int)), p.2)
        else none
    else if isDigitChar c then
      let p := parseDigits (c.toNat - 48) rest
      some (.num (p.1 : Int), p.2)
    else none

def parseArrElems : Nat → List Char → Option (JsonArr × List Char)
  | 0, _ => none
  | f + 1, cs =>
    match parseValue f cs with
    | none => none
    | some (j, r) =>
      match r with
      | ',' :: r2 =>
        match parseArrElems f r2 with
        | none => none
        | some (t, r3) => some (.cons j t, r3)
      | ']' :: r2 => some (.cons j .nil, r2)
      | _ => none

def parseObjFields : Nat → List Char → Option (JsonObj × List Char)
  | 0, _ => none
  | f + 1, cs =>
    match cs with
    | '"' :: cs2 =>
      match parseStringChars cs2 with
      | none => none
      | some (k, r) =>
        match r with
        | ':' :: r2 =>
          match parseValue f r2 with
          | none => none
          | some (v, r3) =>
            match r3 with
            | ',' :: r4 =>
              match parseObjFields f r4 with
              | none => none
              | some (t, r5) => some (.cons ⟨k⟩ v t, r5)
            | '\x7d' :: r4 => some (.cons ⟨k⟩ v .nil, r4)
            | _ => none
        | _ => none
    | _ => none

end

def jsonPrint (j : Json) : String :=
  ⟨printJsonChars j⟩

/-- `json.Unmarshal`: the whole input must be one JSON value (trailing data
is an error). -/
def jsonParse (s : String) : Option Json :=
  match parseValue (s.data.length + 1) s.data with
  | some (j, []) => some j
  | _ => none


def digitFree : List Char → Bool
  | [] => true
  | c :: _ => !(isDigitChar c)

/-! ## Base64 URL codec

Model of `encoding/base64`'s `URLEncoding` (alphabet `A-Za-z0-9-_`, `=`
padding).  `DecodeString` is strict: it needs full four-character groups,
padding only at the end, and it skips CR and LF characters. -/

def encodeB64Char (v : Nat) : Char :=
  if v < 26 then Char.ofNat (65 + v)
  else if v < 52 then Char.ofNat (97 + v - 26)
  else if v < 62 then Char.ofNat (48 + v - 52)
  else if v = 62 then '-'
  else '_'

def decodeB64Char (c : Char) : Option Nat :=
  if decide ('A' ≤ c) && decide (c ≤ 'Z') then some (c.toNat - 65)
  else if decide ('a' ≤ c) && decide (c ≤ 'z') then some (c.toNat - 97 + 26)
  else if decide ('0' ≤ c) && decide (c ≤ '9') then some (c.toNat - 48 + 52)
  else if c = '-' then some 62
  else if c = '_' then some 63
  else none

def encodeB64 : List Nat → List Char
  | [] => []
  | [b0] => [encodeB64Char (b0 / 4), encodeB64Char (b0 % 4 * 16), '=', '=']
  | [b0, b1] =>
    [encodeB64Char (b0 / 4), encodeB64Char (b0 % 4 * 16 + b1 / 16),
     encodeB64Char (b1 % 16 * 4), '=']
  | b0 :: b1 :: b2 :: rest =>
    encodeB64Char (b0 / 4) :: encodeB64Char (b0 % 4 * 16 + b1 / 16) ::
      encodeB64Char (b1 % 16 * 4 + b2 / 64) :: encodeB64Char (b2 % 64) :: encodeB64 rest

def decodeB64Chunks : List Char → Option (List Nat)
  | [] => some []
  | c0 :: c1 :: c2 :: c3 :: rest =>
    match decodeB64Char c0, decodeB64Char c1 with
    | some v0, some v1 =>
      if c2 = '=' then
        if c3 = '=' ∧ rest = [] then some [v0 * 4 + v1 / 16] else none
      else
        match decodeB64Char c2 with
        | some v2 =>
          if c3 = '=' then
            if rest = [] then some [v0 * 4 + v1 / 16, v1 % 16 * 16 + v2 / 4] else none
          else
            match decodeB64Char c3 with
            | some v3 =>
              (decodeB64Chunks rest).map
                (fun bs =>
                  (v0 * 4 + v1 / 16) :: (v1 % 16 * 16 + v2 / 4) :: (v2 % 4 * 64 + v3) :: bs)
            | none => none
        | none => none
    | _, _ => none
  | _ => none

def notNewline (c : Char) : Bool :=
  !(c = '\r' || c = '\n')

/-- `base64.URLEncoding.EncodeToString`, bytes as naturals below 256. -/
def base64UrlEncode (bs : List Nat) : String :=
  ⟨encodeB64 bs⟩

/-- `base64.URLEncoding.DecodeString`; the decoder ignores CR and LF. -/
def base64UrlDecode (s : String) : Option (List Nat) :=
  decodeB64Chunks (s.data.filter notNewline)

/-! ## Password hashing (x/crypto/bcrypt)

Interface-boundary model.  The verification-relevant contract of bcrypt at
this repository's vintage: hashing derives its key from the first 72 bytes
of the password — longer input is silently truncated, which is exactly why
the source tracks `maxSecretLength` — and comparison succeeds precisely
when the presented password agrees with the hashed one on that prefix. -/

structure BcryptHash where
  cost : Nat
  keyOf72 : List Nat
deriving DecidableEq

def bcryptGenerateFromPassword (password : List Nat) (cost : Nat) : BcryptHash :=
  ⟨cost, password.take 72⟩

def bcryptCompareHashAndPassword (hash : BcryptHash) (password : List Nat) : Bool :=
  decide (hash.keyOf72 = password.take 72)

/-! ## Errors

The distinct error values the embedded code can return. -/

inductive DBErr where
  /-- backend-specific uniqueness-violation error carrying the backend's code -/
  | uniqueViolation (code : String)
  /-- the not-found sentinel (client.ErrorNotFound / connector.ErrorNotFound) -/
  | notFound
  /-- base64 decode failure surfaced by newClientModel -/
  | decodeError
  /-- the batch loop's "client has no secret" error, carrying the id -/
  | validation (id : String)
  /-- the translated "client ID already exists" error -/
  | alreadyExists
  /-- JSON unmarshal failure -/
  | deserialization
  /-- unregistered connector type tag -/
  | unknownType
deriving DecidableEq

/-! ## Client credential store (db/client.go) -/

def clientTableName : String := "client_identity"

def bcryptHashCost : Nat := 10

/-- Blowfish's maximum password length; tracked and checked explicitly
because the bcrypt library silently ignores bytes past the first 72. -/
def maxSecretLength : Nat := 72

/-- postgres unique_violation error code -/
def pgErrorCodeUniqueViolation : String := "23505"

structure ClientCredentials where
  ID : String
  Secret : String
deriving DecidableEq

structure Client where
  Credentials : ClientCredentials
  Metadata : Json
  Admin : Bool
deriving DecidableEq

structure clientModel where
  ID : String
  Secret : BcryptHash
  Metadata : String
  DexAdmin : Bool
deriving DecidableEq

/-- newClientModel: decode the transported secret, bcrypt-hash the decoded
bytes, serialize the metadata. -/
def newClientModel (cli : Client) : Except DBErr clientModel :=
  match base64UrlDecode cli.Credentials.Secret with
  | none => .error .decodeError
  | some secretBytes =>
    let hashed := bcryptGenerateFromPassword secretBytes bcryptHashCost
    let bmeta := jsonPrint cli.Metadata
    .ok ⟨cli.Credentials.ID, hashed, bmeta, cli.Admin⟩

/-- clientModel.Client: rebuild the client from a row; the stored metadata
is unmarshalled, the secret is not echoed back. -/
def clientModel.Client (m : clientModel) : Except DBErr Client :=
  match jsonParse m.Metadata with
  | none => .error .deserialization
  | some meta => .ok ⟨⟨m.ID, ""⟩, meta, m.DexAdmin⟩

/-- The client_identity table owned by the store. -/
abbrev ClientTable := List clientModel

/-- The executor's primary-key Get on client_identity. -/
def tableGet (t : ClientTable) (id : String) : Option clientModel :=
  t.find? fun m => m.ID == id

/-- The executor's Insert: the database rejects a duplicate primary key
with its backend uniqueness-violation error. -/
def tableInsert (t : ClientTable) (m : clientModel) : Except DBErr ClientTable :=
  match tableGet t m.ID with
  | some _ => .error (.uniqueViolation pgErrorCodeUniqueViolation)
  | none => .ok (t ++ [m])

/-- The executor's Update by primary key. -/
def tableUpdate (t : ClientTable) (m : clientModel) : ClientTable :=
  t.map fun r => if r.ID == m.ID then m else r

/-- Modelled from the spec: the postgres driver's checker, registered with
registerAlreadyExistsChecker during driver initialization (the
registration site is the optionally-compiled driver integration, outside
the shown source); it matches the backend code "23505". -/
def pgAlreadyExistsChecker (e : DBErr) : Bool :=
  match e with
  | .uniqueViolation code => code == pgErrorCodeUniqueViolation
  | _ => false

/-- The process-wide registry populated at startup. -/
def alreadyExistsCheckers : List (DBErr → Bool) := [pgAlreadyExistsChecker]

/-- isAlreadyExistsErr: true iff any registered checker matches. -/
def isAlreadyExistsErr (err : DBErr) : Bool :=
  alreadyExistsCheckers.any fun checker => checker err

namespace clientRepo

/-- clientRepo.Get. -/
def Get (t : ClientTable) (clientID : String) : Except DBErr Client :=
  match tableGet t clientID with
  | none => .error .notFound
  | some m => m.Client

/-- clientRepo.IsDexAdmin: the flag together with the returned error; when
the row is absent the code returns (false, err) with err nil. -/
def IsDexAdmin (t : ClientTable) (clientID : String) : Bool × Option DBErr :=
  match tableGet t clientID with
  | none => (false, none)
  | some m => (m.DexAdmin, none)

/-- clientRepo.SetDexAdmin: read-modify-write in its own transaction; the
result is the table after the call together with the returned error.  When
the row is absent the code returns err — which is nil — before any write,
and the deferred rollback drops the transaction. -/
def SetDexAdmin (t : ClientTable) (clientID : String) (isAdmin : Bool) :
    ClientTable × Option DBErr :=
  match tableGet t clientID with
  | none => (t, none)
  | some m => (tableUpdate t { m with DexAdmin := isAdmin }, none)

/-- clientRepo.Authenticate. -/
def Authenticate (t : ClientTable) (creds : ClientCredentials) : Bool × Option DBErr :=
  match tableGet t creds.ID with
  | none => (false, none)
  | some m =>
    match base64UrlDecode creds.Secret with
    | none => (false, none)
    | some dec =>
      if dec.length > maxSecretLength then (false, none)
      else (bcryptCompareHashAndPassword m.Secret dec, none)

/-- clientRepo.New: generate a secret (the generator's output is passed as
generatedSecret), overwrite the client's secret with its encoding, build
the row, insert it, and translate a backend uniqueness error through the
checker registry. -/
def New (t : ClientTable) (generatedSecret : List Nat) (cli : Client) :
    Except DBErr ClientCredentials × ClientTable :=
  let encoded := base64UrlEncode generatedSecret
  let cli2 := { cli with Credentials := { cli.Credentials with Secret := encoded } }
  match newClientModel cli2 with
  | .error e => (.error e, t)
  | .ok cim =>
    match tableInsert t cim with
    | .error e => (.error (if isAlreadyExistsErr e then .alreadyExists else e), t)
    | .ok t2 => (.ok ⟨cli.Credentials.ID, encoded⟩, t2)

end clientRepo

/-- The per-item loop of NewClientRepoFromClients, inside the transaction. -/
def batchInsertLoop (t : ClientTable) : List Client → Except DBErr ClientTable
  | [] => .ok t
  | c :: rest =>
    if c.Credentials.Secret = "" then .error (.validation c.Credentials.ID)
    else
      match newClientModel c with
      | .error e => .error e
      | .ok cm =>
        match tableInsert t cm with
        | .error e => .error e
        | .ok t2 => batchInsertLoop t2 rest

/-- NewClientRepoFromClients: the whole batch in one transaction; the
deferred rollback keeps the original table unless every item succeeded
and the commit ran. -/
def NewClientRepoFromClients (t : ClientTable) (clients : List Client) :
    ClientTable × Option DBErr :=
  match batchInsertLoop t clients with
  | .error e => (t, some e)
  | .ok t2 => (t2, none)

/-! ## Connector configuration store (db/connector_config.go) -/

def connectorConfigTableName : String := "connector_config"

/-- A connector configuration value: its identifier, its type tag, and the
rest of its configuration document. -/
structure ConnectorConfig where
  id : String
  type : String
  payload : Json
deriving DecidableEq

/-- A connector_config row (fields ID, Type, Config in the source). -/
structure connectorConfigModel where
  ID : String
  type : String
  Config : String
deriving DecidableEq

/-- Modelled from the spec: json.Marshal of a concrete connector config
serializes its identifier together with the rest of its document; the
concrete config types live in the connector package, outside the shown
source. -/
def marshalConnectorConfig (cfg : ConnectorConfig) : String :=
  jsonPrint (.obj (.cons "id" (.str cfg.id) (.cons "config" cfg.payload .nil)))

/-- newConnectorConfigModel (the marshal step cannot fail on these
documents, so its error return is always nil). -/
def newConnectorConfigModel (cfg : ConnectorConfig) : connectorConfigModel :=
  ⟨cfg.id, cfg.type, marshalConnectorConfig cfg⟩

/-- Modelled from the spec: connector.NewConnectorConfigFromType resolves a
type tag through the registry populated at startup (here the list of
registered tags) and fails with the unknown-type error otherwise. -/
def NewConnectorConfigFromType (registry : List String) (tag : String) : Except DBErr Unit :=
  if tag ∈ registry then .ok () else .error .unknownType

/-- Modelled from the spec: json.Unmarshal of a stored config document into
the concrete shape selected by the row's type tag. -/
def unmarshalConnectorConfig (tag : String) (s : String) : Except DBErr ConnectorConfig :=
  match jsonParse s with
  | some (.obj (.cons k1 (.str i) (.cons k2 p .nil))) =>
    if k1 = "id" ∧ k2 = "config" then .ok ⟨i, tag, p⟩ else .error .deserialization
  | _ => .error .deserialization

/-- connectorConfigModel.ConnectorConfig: resolve the tag first, then
unmarshal the stored document. -/
def connectorConfigModel.ConnectorConfig (registry : List String)
    (m : connectorConfigModel) : Except DBErr ConnectorConfig :=
  match NewConnectorConfigFromType registry m.type with
  | .error e => .error e
  | .ok _ => unmarshalConnectorConfig m.type m.Config

/-- The connector_config table owned by the store. -/
abbrev ConnectorTable := List connectorConfigModel

def ctableGet (t : ConnectorTable) (id : String) : Option connectorConfigModel :=
  t.find? fun m => m.ID == id

def ctableInsert (t : ConnectorTable) (m : connectorConfigModel) :
    Except DBErr ConnectorTable :=
  match ctableGet t m.ID with
  | some _ => .error (.uniqueViolation pgErrorCodeUniqueViolation)
  | none => .ok (t ++ [m])

namespace ConnectorConfigRepo

/-- ConnectorConfigRepo.All: deserialize every row; the first failing row
fails the whole call. -/
def All (registry : List String) : ConnectorTable → Except DBErr (List ConnectorConfig)
  | [] => .ok []
  | m :: rest =>
    match m.ConnectorConfig registry with
    | .error e => .error e
    | .ok cfg =>
      match All registry rest with
      | .error e => .error e
      | .ok cfgs => .ok (cfg :: cfgs)

/-- ConnectorConfigRepo.GetConnectorByID. -/
def GetConnectorByID (registry : List String) (t : ConnectorTable) (id : String) :
    Except DBErr ConnectorConfig :=
  match ctableGet t id with
  | none => .error .notFound
  | some m => m.ConnectorConfig registry

/-- The insert loop of Set (gorp's variadic Insert). -/
def insertAll (t : ConnectorTable) :
    List connectorConfigModel → Except DBErr ConnectorTable
  | [] => .ok t
  | m :: rest =>
    match ctableInsert t m with
    | .error e => .error e
    | .ok t2 => insertAll t2 rest

/-- ConnectorConfigRepo.Set: serialize all configs, then in one transaction
delete every row and insert the serialized rows; the deferred rollback
keeps the prior table on any failure. -/
def Set (t : ConnectorTable) (cfgs : List ConnectorConfig) :
    ConnectorTable × Option DBErr :=
  match insertAll [] (cfgs.map newConnectorConfigModel) with
  | .error e => (t, some e)
  | .ok t2 => (t2, none)

end ConnectorConfigRepo

/-- Whether a stored connector row's config document unmarshals (shape
check only; independent of the registry). -/
def rowParses (m : connectorConfigModel) : Bool :=
  match unmarshalConnectorConfig m.type m.Config with
  | .ok _ => true
  | .error _ => false


/-! ## Round-trip of the JSON codec -/

theorem hexVal_digitChar : ∀ d, d < 16 → hexVal (Nat.digitChar d) = some d := by decide

theorem isDigitChar_digitChar : ∀ d, d < 10 → isDigitChar (Nat.digitChar d) = true := by decide

theorem toNat_digitChar : ∀ d, d < 10 → (Nat.digitChar d).toNat - 48 = d := by decide

theorem digitChar_ne : ∀ d, d < 10 →
    Nat.digitChar d ≠ 'n' ∧ Nat.digitChar d ≠ 't' ∧ Nat.digitChar d ≠ 'f' ∧
    Nat.digitChar d ≠ '"' ∧ Nat.digitChar d ≠ '[' ∧ Nat.digitChar d ≠ '\x7b' ∧
    Nat.digitChar d ≠ '-' ∧ Nat.digitChar d ≠ ']' ∧ Nat.digitChar d ≠ '\x7d' := by decide

theorem parseStringChars_print (l : List Char) (rest : List Char) :
    parseStringChars ((l.map escapeChar).flatten ++ '"' :: rest) = some (l, rest) := by
  induction l with
  | nil =>
    rw [List.map_nil, List.flatten_nil, List.nil_append, parseStringChars.eq_def]
    simp
  | cons c l ih =>
    simp only [List.map_cons, List.flatten_cons, List.append_assoc]
    by_cases h1 : c = '"'
    · subst h1
      rw [show escapeChar '"' = ['\\', '"'] from rfl]
      rw [List.cons_append, List.cons_append, parseStringChars.eq_def]
      simp [ih]
    · by_cases h2 : c = '\\'
      · subst h2
        rw [show escapeChar '\\' = ['\\', '\\'] from rfl]
        rw [List.cons_append, List.cons_append, parseStringChars.eq_def]
        simp [ih]
      · by_cases h3 : c.toNat < 32
        · have h16 : c.toNat / 16 < 16 := by omega
          have h16b : c.toNat % 16 < 16 := by omega
          rw [show escapeChar c = ['\\', 'u', '0', '0', Nat.digitChar (c.toNat / 16),
                Nat.digitChar (c.toNat % 16)] from by simp [escapeChar, h1, h2, h3]]
          simp only [List.cons_append]
          rw [parseStringChars.eq_def]
          simp [show hexVal '0' = some 0 from rfl, hexVal_digitChar _ h16,
            hexVal_digitChar _ h16b, ih]
          rw [show c.toNat / 16 * 16 + c.toNat % 16 = c.toNat from by omega, Char.ofNat_toNat]
        · rw [show escapeChar c = [c] from by simp [escapeChar, h1, h2, h3]]
          rw [List.singleton_append, parseStringChars.eq_def]
          simp [h1, h2, ih]

theorem parseDigits_map (ds : List Nat) (acc : Nat) (rest : List Char)
    (hds : ∀ d ∈ ds, d < 10) (hrest : digitFree rest = true) :
    parseDigits acc (ds.map Nat.digitChar ++ rest) =
      (ds.foldl (fun a d => a * 10 + d) acc, rest) := by
  induction ds generalizing acc with
  | nil =>
    cases rest with
    | nil => simp [parseDigits]
    | cons c r =>
      simp only [digitFree, Bool.not_eq_true'] at hrest
      simp [parseDigits, hrest]
  | cons d ds ih =>
    have hd : d < 10 := hds d (by simp)
    simp only [List.map_cons, List.cons_append]
    rw [parseDigits]
    simp only [isDigitChar_digitChar d hd, if_true, toNat_digitChar d hd, List.foldl_cons]
    exact ih _ (fun e he => hds e (List.mem_cons_of_mem _ he))

theorem foldl_reverse_ofDigits (ds : List Nat) (acc : Nat) :
    ds.reverse.foldl (fun a d => a * 10 + d) acc =
      acc * 10 ^ ds.length + Nat.ofDigits 10 ds := by
  induction ds generalizing acc with
  | nil => simp [Nat.ofDigits]
  | cons d ds ih =>
    simp only [List.reverse_cons, List.foldl_append, ih, List.foldl_cons, List.foldl_nil,
      List.length_cons, Nat.ofDigits_cons, pow_succ]
    ring

theorem printNat_shape (n : Nat) :
    ∃ d L, printNatChars n = Nat.digitChar d :: L.map Nat.digitChar ∧ d < 10 ∧
      (∀ e ∈ L, e < 10) ∧ List.foldl (fun a e => a * 10 + e) 0 (d :: L) = n := by
  by_cases h : n = 0
  · subst h
    exact ⟨0, [], rfl, by norm_num, by simp, rfl⟩
  · have hne : (Nat.digits 10 n).reverse ≠ [] := by
      simp [List.reverse_eq_nil_iff, Nat.digits_ne_nil_iff_ne_zero, h]
    obtain ⟨d, L, hL⟩ := List.exists_cons_of_ne_nil hne
    have hmem : ∀ e ∈ d :: L, e < 10 := by
      intro e he
      have hmem2 : e ∈ Nat.digits 10 n := List.mem_reverse.mp (hL ▸ he)
      exact Nat.digits_lt_base (by norm_num) hmem2
    refine ⟨d, L, ?_, hmem d (by simp), fun e he => hmem e (by simp [he]), ?_⟩
    · simp [printNatChars, h, hL]
    · rw [← hL, foldl_reverse_ofDigits]
      simp [Nat.ofDigits_digits]

theorem parseValue_printNat (f : Nat) (n : Nat) (rest : List Char)
    (hrest : digitFree rest = true) :
    parseValue (f + 1) (printNatChars n ++ rest) = some (.num (n : Int), rest) := by
  obtain ⟨d, L, hprint, hd, hL, hfold⟩ := printNat_shape n
  obtain ⟨hn1, hn2, hn3, hn4, hn5, hn6, hn7, hn8, hn9⟩ := digitChar_ne d hd
  have hfold2 : List.foldl (fun a e => a * 10 + e) d L = n := by simpa using hfold
  rw [hprint, List.cons_append]
  simp only [parseValue]
  simp [hn1, hn2, hn3, hn4, hn5, hn6, hn7, isDigitChar_digitChar d hd, toNat_digitChar d hd,
    parseDigits_map L d rest hL hrest, hfold2]

theorem parseValue_printInt (f : Nat) (n : Int) (rest : List Char)
    (hrest : digitFree rest = true) :
    parseValue (f + 1) (printIntChars n ++ rest) = some (.num n, rest) := by
  by_cases hneg : n < 0
  · obtain ⟨d, L, hprint, hd, hL, hfold⟩ := printNat_shape n.natAbs
    have hfold2 : List.foldl (fun a e => a * 10 + e) d L = n.natAbs := by simpa using hfold
    have hval : -((n.natAbs : Nat) : Int) = n := by omega
    rw [printIntChars, if_pos hneg, hprint, List.cons_append, List.cons_append]
    simp only [parseValue]
    simp [isDigitChar_digitChar d hd, toNat_digitChar d hd,
      parseDigits_map L d rest hL hrest, hfold2, hval]
    rw [abs_of_neg hneg, neg_neg]
  · rw [printIntChars, if_neg hneg]
    rw [parseValue_printNat f n.toNat rest hrest]
    rw [Int.toNat_of_nonneg (by omega)]

theorem digitFree_printArrSep (t : JsonArr) (rest : List Char) :
    digitFree (printArrSep t ++ rest) = true := by
  cases t <;> rfl

theorem digitFree_printObjSep (t : JsonObj) (rest : List Char) :
    digitFree (printObjSep t ++ rest) = true := by
  cases t <;> rfl

theorem printJson_head (j : Json) :
    ∃ c cs, printJsonChars j = c :: cs ∧ c ≠ ']' ∧ c ≠ '\x7d' := by
  cases j with
  | null => exact ⟨'n', ['u', 'l', 'l'], rfl, by decide, by decide⟩
  | bool b =>
    cases b with
    | false => exact ⟨'f', ['a', 'l', 's', 'e'], rfl, by decide, by decide⟩
    | true => exact ⟨'t', ['r', 'u', 'e'], rfl, by decide, by decide⟩
  | num n =>
    by_cases hneg : n < 0
    · exact ⟨'-', printNatChars n.natAbs,
        by simp [printJsonChars, printIntChars, hneg], by decide, by decide⟩
    · obtain ⟨d, L, hprint, hd, _, _⟩ := printNat_shape n.toNat
      obtain ⟨_, _, _, _, _, _, _, hn8, hn9⟩ := digitChar_ne d hd
      exact ⟨Nat.digitChar d, L.map Nat.digitChar,
        by simp [printJsonChars, printIntChars, hneg, hprint], hn8, hn9⟩
  | str s =>
    exact ⟨'"', (s.data.map escapeChar).flatten ++ ['"'],
      by simp [printJsonChars, printStringChars], by decide, by decide⟩
  | arr a =>
    cases a with
    | nil => exact ⟨'[', [']'], rfl, by decide, by decide⟩
    | cons h t => exact ⟨'[', printJsonChars h ++ printArrSep t, rfl, by decide, by decide⟩
  | obj o =>
    cases o with
    | nil => exact ⟨'\x7b', ['\x7d'], rfl, by decide, by decide⟩
    | cons k v t =>
      exact ⟨'\x7b', printStringChars k ++ ':' :: printJsonChars v ++ printObjSep t,
        rfl, by decide, by decide⟩

theorem jsonSize_pos (j : Json) : 1 ≤ jsonSize j := by
  cases j <;> simp [jsonSize]

mutual

theorem parseValue_print (j : Json) (f : Nat) (rest : List Char)
    (hsize : jsonSize j ≤ f) (hrest : digitFree rest = true) :
    parseValue f (printJsonChars j ++ rest) = some (j, rest) := by
  have hf1 : 1 ≤ f := le_trans (jsonSize_pos j) hsize
  obtain ⟨f, rfl⟩ : ∃ g, f = g + 1 := ⟨f - 1, by omega⟩
  cases j with
  | null =>
    simp only [printJsonChars, List.cons_append, List.nil_append]
    simp only [parseValue]
    simp
  | bool b =>
    cases b with
    | false =>
      simp only [printJsonChars, List.cons_append, List.nil_append]
      simp only [parseValue]
      simp
    | true =>
      simp only [printJsonChars, List.cons_append, List.nil_append]
      simp only [parseValue]
      simp
  | num n =>
    rw [show printJsonChars (.num n) = printIntChars n from rfl]
    exact parseValue_printInt f n rest hrest
  | str s =>
    have hstr := parseStringChars_print s.data rest
    simp only [printJsonChars, printStringChars, List.cons_append, List.append_assoc,
      List.singleton_append]
    simp only [parseValue]
    simp [hstr]
  | arr a =>
    cases a with
    | nil =>
      simp only [printJsonChars, List.cons_append, List.nil_append]
      simp only [parseValue]
      simp
    | cons h t =>
      obtain ⟨c, cs, hcs, hc1, hc2⟩ := printJson_head h
      have hsz : jsonArrSize (JsonArr.cons h t) ≤ f := by
        simp only [jsonSize] at hsize
        omega
      have harr := parseArrElems_print h t f rest hsz
      have hhead : (printJsonChars h ++ (printArrSep t ++ rest)).head? = some c := by
        rw [hcs]
        rfl
      simp only [printJsonChars, List.cons_append, List.append_assoc]
      simp only [parseValue]
      simp [hhead, hc1, harr]
  | obj o =>
    cases o with
    | nil =>
      simp only [printJsonChars, List.cons_append, List.nil_append]
      simp only [parseValue]
      simp
    | cons k v t =>
      have hsz : jsonObjSize (JsonObj.cons k v t) ≤ f := by
        simp only [jsonSize] at hsize
        omega
      have hobj := parseObjFields_print k v t f rest hsz
      have hq : ∀ L, (printStringChars k ++ L).head? = some '"' := by
        intro L
        simp [printStringChars]
      simp only [printJsonChars, List.cons_append, List.append_assoc]
      simp only [parseValue]
      simp [hq, hobj]
termination_by sizeOf j

theorem parseArrElems_print (h : Json) (t : JsonArr) (f : Nat) (rest : List Char)
    (hsize : jsonArrSize (JsonArr.cons h t) ≤ f) :
    parseArrElems f (printJsonChars h ++ (printArrSep t ++ rest)) =
      some (JsonArr.cons h t, rest) := by
  have hf1 : 1 ≤ f := by
    simp only [jsonArrSize] at hsize
    omega
  obtain ⟨f, rfl⟩ : ∃ g, f = g + 1 := ⟨f - 1, by omega⟩
  have hszh : jsonSize h ≤ f := by
    simp only [jsonArrSize] at hsize
    omega
  have hv := parseValue_print h f (printArrSep t ++ rest) hszh (digitFree_printArrSep t rest)
  simp only [parseArrElems]
  rw [hv]
  cases t with
  | nil => simp [printArrSep]
  | cons h2 t2 =>
    have hsz2 : jsonArrSize (JsonArr.cons h2 t2) ≤ f := by
      simp only [jsonArrSize] at hsize
      simp only [jsonArrSize]
      omega
    have harr := parseArrElems_print h2 t2 f rest hsz2
    simp [printArrSep, List.append_assoc, harr]
termination_by sizeOf (JsonArr.cons h t)

theorem parseObjFields_print (k : String) (v : Json) (t : JsonObj) (f : Nat) (rest : List Char)
    (hsize : jsonObjSize (JsonObj.cons k v t) ≤ f) :
    parseObjFields f
        (printStringChars k ++ (':' :: (printJsonChars v ++ (printObjSep t ++ rest)))) =
      some (JsonObj.cons k v t, rest) := by
  have hf1 : 1 ≤ f := by
    simp only [jsonObjSize] at hsize
    omega
  obtain ⟨f, rfl⟩ : ∃ g, f = g + 1 := ⟨f - 1, by omega⟩
  have hszv : jsonSize v ≤ f := by
    simp only [jsonObjSize] at hsize
    omega
  have hstr := parseStringChars_print k.data (':' :: (printJsonChars v ++ (printObjSep t ++ rest)))
  have hv := parseValue_print v f (printObjSep t ++ rest) hszv (digitFree_printObjSep t rest)
  simp only [printStringChars, List.cons_append, List.append_assoc, List.singleton_append]
  simp only [parseObjFields]
  cases t with
  | nil =>
    simp only [printObjSep, List.singleton_append] at hstr hv ⊢
    simp [hstr, hv]
  | cons k2 v2 t2 =>
    have hsz2 : jsonObjSize (JsonObj.cons k2 v2 t2) ≤ f := by
      simp only [jsonObjSize] at hsize
      simp only [jsonObjSize]
      omega
    have hobj := parseObjFields_print k2 v2 t2 f rest hsz2
    simp only [printObjSep, List.cons_append, List.append_assoc] at hstr hv ⊢
    simp [hstr, hv, List.append_assoc, hobj]
termination_by sizeOf (JsonObj.cons k v t)

end

mutual

theorem jsonSize_le_print (j : Json) : jsonSize j ≤ (printJsonChars j).length := by
  cases j with
  | null => simp [jsonSize, printJsonChars]
  | bool b => cases b <;> simp [jsonSize, printJsonChars]
  | num n =>
    obtain ⟨c, cs, hcs, _, _⟩ := printJson_head (.num n)
    simp only [jsonSize, hcs, List.length_cons]
    omega
  | str s => simp [jsonSize, printJsonChars, printStringChars]
  | arr a =>
    cases a with
    | nil => simp [jsonSize, jsonArrSize, printJsonChars]
    | cons h t =>
      have h1 := jsonSize_le_print h
      have h2 := jsonArrSize_le_printArrSep t
      simp only [jsonSize, jsonArrSize, printJsonChars, List.length_cons, List.length_append]
      omega
  | obj o =>
    cases o with
    | nil => simp [jsonSize, jsonObjSize, printJsonChars]
    | cons k v t =>
      have h1 := jsonSize_le_print v
      have h2 := jsonObjSize_le_printObjSep t
      simp only [jsonSize, jsonObjSize, printJsonChars, List.length_cons, List.length_append]
      omega
termination_by sizeOf j

theorem jsonArrSize_le_printArrSep (t : JsonArr) :
    jsonArrSize t + 1 ≤ (printArrSep t).length := by
  cases t with
  | nil => simp [jsonArrSize, printArrSep]
  | cons h t2 =>
    have h1 := jsonSize_le_print h
    have h2 := jsonArrSize_le_printArrSep t2
    simp only [jsonArrSize, printArrSep, List.length_cons, List.length_append]
    omega
termination_by sizeOf t

theorem jsonObjSize_le_printObjSep (t : JsonObj) :
    jsonObjSize t + 1 ≤ (printObjSep t).length := by
  cases t with
  | nil => simp [jsonObjSize, printObjSep]
  | cons k v t2 =>
    have h1 := jsonSize_le_print v
    have h2 := jsonObjSize_le_printObjSep t2
    simp only [jsonObjSize, printObjSep, List.length_cons, List.length_append]
    omega
termination_by sizeOf t

end

/-- Serialization followed by parsing returns the original document. -/
theorem jsonParse_print (j : Json) : jsonParse (jsonPrint j) = some j := by
  have hsize : jsonSize j ≤ (printJsonChars j).length + 1 :=
    le_trans (jsonSize_le_print j) (Nat.le_succ _)
  have h := parseValue_print j ((printJsonChars j).length + 1) [] hsize rfl
  rw [List.append_nil] at h
  simp [jsonParse, jsonPrint, h]

theorem decodeB64Char_encodeB64Char :
    ∀ v, v < 64 → decodeB64Char (encodeB64Char v) = some v := by decide

theorem encodeB64Char_ne_pad : ∀ v, v < 64 → encodeB64Char v ≠ '=' := by decide

theorem notNewline_encodeB64Char : ∀ v, v < 64 → notNewline (encodeB64Char v) = true := by
  decide

theorem notNewline_pad : notNewline ('=') = true := rfl

theorem filter_encodeB64 : ∀ bs : List Nat, (∀ b ∈ bs, b < 256) →
    (encodeB64 bs).filter notNewline = encodeB64 bs
  | [], _ => rfl
  | [b0], h => by
    have h0 : b0 < 256 := h _ (by simp)
    simp [encodeB64, List.filter_cons, notNewline_encodeB64Char _ (by omega : b0 / 4 < 64),
      notNewline_encodeB64Char _ (by omega : b0 % 4 * 16 < 64), notNewline_pad]
  | [b0, b1], h => by
    have h0 : b0 < 256 := h _ (by simp)
    have h1 : b1 < 256 := h _ (by simp)
    simp [encodeB64, List.filter_cons, notNewline_encodeB64Char _ (by omega : b0 / 4 < 64),
      notNewline_encodeB64Char _ (by omega : b0 % 4 * 16 + b1 / 16 < 64),
      notNewline_encodeB64Char _ (by omega : b1 % 16 * 4 < 64), notNewline_pad]
  | b0 :: b1 :: b2 :: rest2, h => by
    have h0 : b0 < 256 := h _ (by simp)
    have h1 : b1 < 256 := h _ (by simp)
    have h2 : b2 < 256 := h _ (by simp)
    have ih := filter_encodeB64 rest2 (fun b hb => h b (by simp [hb]))
    simp [encodeB64, List.filter_cons, notNewline_encodeB64Char _ (by omega : b0 / 4 < 64),
      notNewline_encodeB64Char _ (by omega : b0 % 4 * 16 + b1 / 16 < 64),
      notNewline_encodeB64Char _ (by omega : b1 % 16 * 4 + b2 / 64 < 64),
      notNewline_encodeB64Char _ (by omega : b2 % 64 < 64), ih]

theorem decodeB64Chunks_encodeB64 : ∀ bs : List Nat, (∀ b ∈ bs, b < 256) →
    decodeB64Chunks (encodeB64 bs) = some bs
  | [], _ => rfl
  | [b0], h => by
    have h0 : b0 < 256 := h _ (by simp)
    simp [encodeB64, decodeB64Chunks,
      decodeB64Char_encodeB64Char (b0 / 4) (by omega),
      decodeB64Char_encodeB64Char (b0 % 4 * 16) (by omega)]
    omega
  | [b0, b1], h => by
    have h0 : b0 < 256 := h _ (by simp)
    have h1 : b1 < 256 := h _ (by simp)
    have hne : encodeB64Char (b1 % 16 * 4) ≠ '=' := encodeB64Char_ne_pad _ (by omega)
    simp [encodeB64, decodeB64Chunks, hne,
      decodeB64Char_encodeB64Char (b0 / 4) (by omega),
      decodeB64Char_encodeB64Char (b0 % 4 * 16 + b1 / 16) (by omega),
      decodeB64Char_encodeB64Char (b1 % 16 * 4) (by omega)]
    refine ⟨by omega, by omega⟩
  | b0 :: b1 :: b2 :: rest2, h => by
    have h0 : b0 < 256 := h _ (by simp)
    have h1 : b1 < 256 := h _ (by simp)
    have h2 : b2 < 256 := h _ (by simp)
    have hne2 : encodeB64Char (b1 % 16 * 4 + b2 / 64) ≠ '=' := encodeB64Char_ne_pad _ (by omega)
    have hne3 : encodeB64Char (b2 % 64) ≠ '=' := encodeB64Char_ne_pad _ (by omega)
    have ih := decodeB64Chunks_encodeB64 rest2 (fun b hb => h b (by simp [hb]))
    simp [encodeB64, decodeB64Chunks, hne2, hne3, ih,
      decodeB64Char_encodeB64Char (b0 / 4) (by omega),
      decodeB64Char_encodeB64Char (b0 % 4 * 16 + b1 / 16) (by omega),
      decodeB64Char_encodeB64Char (b1 % 16 * 4 + b2 / 64) (by omega),
      decodeB64Char_encodeB64Char (b2 % 64) (by omega)]
    refine ⟨by omega, by omega, by omega⟩

/-- Decoding inverts encoding for genuine byte sequences. -/
theorem base64_decode_encode (bs : List Nat) (h : ∀ b ∈ bs, b < 256) :
    base64UrlDecode (base64UrlEncode bs) = some bs := by
  rw [base64UrlDecode, base64UrlEncode]
  show decodeB64Chunks ((encodeB64 bs).filter notNewline) = some bs
  rw [filter_encodeB64 bs h, decodeB64Chunks_encodeB64 bs h]

/-! ## Store lemmas -/

theorem tableGet_append_single (t : ClientTable) (m : clientModel)
    (h : tableGet t m.ID = none) : tableGet (t ++ [m]) m.ID = some m := by
  unfold tableGet at h ⊢
  rw [List.find?_append, h]
  simp

theorem connectorConfig_roundtrip (registry : List String) (cfg : ConnectorConfig)
    (h : cfg.type ∈ registry) :
    (newConnectorConfigModel cfg).ConnectorConfig registry = .ok cfg := by
  obtain ⟨i, ty, p⟩ := cfg
  simp only [newConnectorConfigModel, connectorConfigModel.ConnectorConfig,
    NewConnectorConfigFromType]
  rw [if_pos h]
  simp only [marshalConnectorConfig, unmarshalConnectorConfig, jsonParse_print]
  simp

theorem batchInsertLoop_error_of_empty_secret :
    ∀ (clients : List Client) (t : ClientTable),
      (∃ c ∈ clients, c.Credentials.Secret = "") →
      ∃ e, batchInsertLoop t clients = .error e := by
  intro clients
  induction clients with
  | nil =>
    intro t h
    simp at h
  | cons c rest ih =>
    intro t h
    by_cases hc : c.Credentials.Secret = ""
    · exact ⟨.validation c.Credentials.ID, by simp [batchInsertLoop, hc]⟩
    · obtain ⟨c2, hmem, hsec⟩ := h
      have hc2rest : c2 ∈ rest := by
        rcases List.mem_cons.mp hmem with rfl | hr
        · exact absurd hsec hc
        · exact hr
      cases hnm : newClientModel c with
      | error e => exact ⟨e, by simp [batchInsertLoop, hc, hnm]⟩
      | ok cm =>
        cases hti : tableInsert t cm with
        | error e => exact ⟨e, by simp [batchInsertLoop, hc, hnm, hti]⟩
        | ok t2 =>
          obtain ⟨e, he⟩ := ih t2 ⟨c2, hc2rest, hsec⟩
          exact ⟨e, by simp [batchInsertLoop, hc, hnm, hti, he]⟩

theorem insertAll_nodup :
    ∀ (ms : List connectorConfigModel) (acc : ConnectorTable),
      (∀ m ∈ ms, ctableGet acc m.ID = none) →
      (ms.map connectorConfigModel.ID).Nodup →
      ConnectorConfigRepo.insertAll acc ms = .ok (acc ++ ms) := by
  intro ms
  induction ms with
  | nil =>
    intro acc _ _
    simp [ConnectorConfigRepo.insertAll]
  | cons m rest ih =>
    intro acc hacc hnd
    have hids : m.ID ∉ rest.map connectorConfigModel.ID ∧
        (rest.map connectorConfigModel.ID).Nodup := by
      simpa [List.nodup_cons] using hnd
    have h1 : ctableGet acc m.ID = none := hacc m (by simp)
    have hstep : ctableInsert acc m = .ok (acc ++ [m]) := by
      simp [ctableInsert, h1]
    have hacc2 : ∀ m2 ∈ rest, ctableGet (acc ++ [m]) m2.ID = none := by
      intro m2 hm2
      have hprev : ctableGet acc m2.ID = none := hacc m2 (List.mem_cons_of_mem _ hm2)
      have hne : (m.ID == m2.ID) = false := by
        simp only [beq_eq_false_iff_ne, ne_eq]
        intro heq
        exact hids.1 (by rw [heq]; exact List.mem_map_of_mem _ hm2)
      unfold ctableGet at hprev ⊢
      rw [List.find?_append, hprev]
      simp [List.find?, hne]
    have hrec := ih (acc ++ [m]) hacc2 hids.2
    simp [ConnectorConfigRepo.insertAll, hstep, hrec]

theorem all_map_models (registry : List String) :
    ∀ cfgs : List ConnectorConfig, (∀ cfg ∈ cfgs, cfg.type ∈ registry) →
      ConnectorConfigRepo.All registry (cfgs.map newConnectorConfigModel) = .ok cfgs := by
  intro cfgs
  induction cfgs with
  | nil => intro _; rfl
  | cons cfg rest ih =>
    intro h
    have h1 := connectorConfig_roundtrip registry cfg (h cfg (by simp))
    have h2 := ih fun c hc => h c (List.mem_cons_of_mem _ hc)
    simp [ConnectorConfigRepo.All, h1, h2]

/-! ## Claims -/

/-- C1: for every client with no pre-supplied secret, Create
(clientRepo.New) followed by Authenticate with the id and encoded secret
it returned yields true with no error: the generated secret,
base64-URL-encoded and returned to the caller, verifies against the bcrypt
hash that was persisted.  The generator's output is byte-valued and at
most 72 bytes long (the default generator emits exactly 72 random bytes),
and the id is not yet taken. -/
theorem C1_create_then_authenticate
    (t : ClientTable) (cli : Client) (gen : List Nat)
    (hfresh : tableGet t cli.Credentials.ID = none)
    (hempty : cli.Credentials.Secret = "")
    (hlen : gen.length ≤ maxSecretLength)
    (hbytes : ∀ b ∈ gen, b < 256) :
    ∃ cc t2, clientRepo.New t gen cli = (.ok cc, t2) ∧
      cc.ID = cli.Credentials.ID ∧ cc.Secret = base64UrlEncode gen ∧
      clientRepo.Authenticate t2 cc = (true, none) := by
  have hdec := base64_decode_encode gen hbytes
  refine ⟨⟨cli.Credentials.ID, base64UrlEncode gen⟩,
    t ++ [⟨cli.Credentials.ID, bcryptGenerateFromPassword gen bcryptHashCost,
      jsonPrint cli.Metadata, cli.Admin⟩], ?_, rfl, rfl, ?_⟩
  · simp [clientRepo.New, newClientModel, hdec, tableInsert, hfresh]
  · have hget := tableGet_append_single t
      ⟨cli.Credentials.ID, bcryptGenerateFromPassword gen bcryptHashCost,
        jsonPrint cli.Metadata, cli.Admin⟩ hfresh
    have hnotlong : ¬ gen.length > maxSecretLength := by omega
    simp only [bcryptGenerateFromPassword] at hget
    simp [clientRepo.Authenticate, hget, hdec, hnotlong,
      bcryptCompareHashAndPassword, bcryptGenerateFromPassword]

theorem C1_witness :
    ∃ cc t2,
      clientRepo.New ([] : ClientTable) [0, 1, 2] ⟨⟨"client1", ""⟩, Json.null, false⟩ =
        (.ok cc, t2) ∧
      cc.ID = "client1" ∧ cc.Secret = base64UrlEncode [0, 1, 2] ∧
      clientRepo.Authenticate t2 cc = (true, none) :=
  C1_create_then_authenticate [] ⟨⟨"client1", ""⟩, Json.null, false⟩ [0, 1, 2]
    rfl rfl (by decide) (by decide)

/-- C2 counterexample: SetAdmin (clientRepo.SetDexAdmin) on an id absent
from the table does NOT fail with NotFoundError: it returns a nil error
(together with the unchanged table). -/
theorem C2_counterexample :
    clientRepo.SetDexAdmin ([] : ClientTable) "missing" true = ([], none) ∧
    (clientRepo.SetDexAdmin ([] : ClientTable) "missing" true).2 ≠ some DBErr.notFound :=
  ⟨rfl, by decide⟩

/-- C2 (amended): SetAdmin on an id not present in the table performs no
write and raises no error: the call returns the table unchanged with a nil
error (the code returns the nil lookup error before any write, and the
deferred rollback discards the transaction); no NotFoundError is
produced. -/
theorem C2_setadmin_missing_id (t : ClientTable) (id : String) (isAdmin : Bool)
    (habsent : tableGet t id = none) :
    clientRepo.SetDexAdmin t id isAdmin = (t, none) := by
  simp [clientRepo.SetDexAdmin, habsent]

theorem C2_witness :
    clientRepo.SetDexAdmin
        [⟨"a", bcryptGenerateFromPassword [1] bcryptHashCost, "null", false⟩] "b" true =
      ([⟨"a", bcryptGenerateFromPassword [1] bcryptHashCost, "null", false⟩], none) :=
  C2_setadmin_missing_id
    [⟨"a", bcryptGenerateFromPassword [1] bcryptHashCost, "null", false⟩] "b" true
    (by decide)

/-- C3 counterexample: a caller-supplied non-empty secret ("QUFB") is not
the one used by Create: with generator output [0] the returned credentials
carry "AA==" (the encoded generated secret), which differs from "QUFB",
and the persisted row hashes the generated bytes. -/
theorem C3_counterexample :
    (clientRepo.New ([] : ClientTable) [0] ⟨⟨"c1", "QUFB"⟩, Json.null, false⟩).1 =
      .ok ⟨"c1", "AA=="⟩ ∧
    (clientRepo.New ([] : ClientTable) [0] ⟨⟨"c1", "QUFB"⟩, Json.null, false⟩).2 =
      [⟨"c1", bcryptGenerateFromPassword [0] bcryptHashCost, jsonPrint Json.null, false⟩] ∧
    ("AA==" : String) ≠ "QUFB" :=
  ⟨rfl, rfl, by decide⟩

/-- C3 (amended): Create (clientRepo.New) ignores any caller-supplied
secret: it always generates a fresh one, overwrites the client's secret
with its encoding, persists the bcrypt hash of the generated bytes, and
returns the encoded generated secret in the credentials. -/
theorem C3_create_uses_generated_secret
    (t : ClientTable) (cli : Client) (gen : List Nat)
    (hfresh : tableGet t cli.Credentials.ID = none)
    (hbytes : ∀ b ∈ gen, b < 256) :
    clientRepo.New t gen cli =
      (.ok ⟨cli.Credentials.ID, base64UrlEncode gen⟩,
       t ++ [⟨cli.Credentials.ID, bcryptGenerateFromPassword gen bcryptHashCost,
              jsonPrint cli.Metadata, cli.Admin⟩]) := by
  have hdec := base64_decode_encode gen hbytes
  simp [clientRepo.New, newClientModel, hdec, tableInsert, hfresh]

theorem C3_witness :
    clientRepo.New ([] : ClientTable) [7] ⟨⟨"c2", "QUFB"⟩, Json.null, true⟩ =
      (.ok ⟨"c2", base64UrlEncode [7]⟩,
       [⟨"c2", bcryptGenerateFromPassword [7] bcryptHashCost, jsonPrint Json.null, true⟩]) :=
  C3_create_uses_generated_secret [] ⟨⟨"c2", "QUFB"⟩, Json.null, true⟩ [7] rfl (by decide)

/-- C4: Authenticate returns (false, nil) — never an error and never true —
whenever the looked-up id is absent, the presented secret fails base64-URL
decoding, or the decoded secret is longer than 72 bytes; only when all
those checks pass is the result the bcrypt comparison (still with nil
error). -/
theorem C4_authenticate_failure_paths (t : ClientTable) (creds : ClientCredentials) :
    (tableGet t creds.ID = none → clientRepo.Authenticate t creds = (false, none)) ∧
    (base64UrlDecode creds.Secret = none →
      clientRepo.Authenticate t creds = (false, none)) ∧
    (∀ dec, base64UrlDecode creds.Secret = some dec → maxSecretLength < dec.length →
      clientRepo.Authenticate t creds = (false, none)) ∧
    (∀ m dec, tableGet t creds.ID = some m → base64UrlDecode creds.Secret = some dec →
      dec.length ≤ maxSecretLength →
      clientRepo.Authenticate t creds = (bcryptCompareHashAndPassword m.Secret dec, none)) := by
  refine ⟨?_, ?_, ?_, ?_⟩
  · intro h
    simp [clientRepo.Authenticate, h]
  · intro h
    cases hget : tableGet t creds.ID with
    | none => simp [clientRepo.Authenticate, hget]
    | some m => simp [clientRepo.Authenticate, hget, h]
  · intro dec hdec hlen
    cases hget : tableGet t creds.ID with
    | none => simp [clientRepo.Authenticate, hget]
    | some m =>
      simp only [clientRepo.Authenticate, hget, hdec]
      rw [if_pos hlen]
  · intro m dec hget hdec hlen
    simp only [clientRepo.Authenticate, hget, hdec]
    rw [if_neg (by omega)]

theorem C4_witness :
    (clientRepo.Authenticate ([] : ClientTable) ⟨"a", "AA=="⟩ = (false, none)) ∧
    (clientRepo.Authenticate
        [⟨"a", bcryptGenerateFromPassword [0] bcryptHashCost, "null", false⟩]
        ⟨"a", "!"⟩ = (false, none)) ∧
    (clientRepo.Authenticate
        [⟨"a", bcryptGenerateFromPassword [0] bcryptHashCost, "null", false⟩]
        ⟨"a", base64UrlEncode (List.replicate 73 1)⟩ = (false, none)) ∧
    (clientRepo.Authenticate
        [⟨"a", bcryptGenerateFromPassword [0] bcryptHashCost, "null", false⟩]
        ⟨"a", "AA=="⟩ =
      (bcryptCompareHashAndPassword (bcryptGenerateFromPassword [0] bcryptHashCost) [0],
        none)) :=
  ⟨(C4_authenticate_failure_paths _ _).1 (by decide),
   (C4_authenticate_failure_paths _ _).2.1 (by decide),
   (C4_authenticate_failure_paths _ _).2.2.1 (List.replicate 73 1) (by decide) (by decide),
   (C4_authenticate_failure_paths _ _).2.2.2
     ⟨"a", bcryptGenerateFromPassword [0] bcryptHashCost, "null", false⟩ [0]
     (by decide) (by decide) (by decide)⟩

/-- C5: a second Create with an id already present fails with the
translated AlreadyExists error (via the registered checkers) and leaves
the table unchanged: the lookup for that id still yields the first call's
row, and the number of rows for that id is unchanged (in particular still
exactly one). -/
theorem C5_create_duplicate_id
    (t : ClientTable) (cli : Client) (gen : List Nat) (m : clientModel)
    (hpresent : tableGet t cli.Credentials.ID = some m)
    (hbytes : ∀ b ∈ gen, b < 256) :
    clientRepo.New t gen cli = (.error .alreadyExists, t) ∧
    tableGet (clientRepo.New t gen cli).2 cli.Credentials.ID = some m ∧
    ((clientRepo.New t gen cli).2.countP fun r => r.ID == cli.Credentials.ID) =
      (t.countP fun r => r.ID == cli.Credentials.ID) := by
  have hdec := base64_decode_encode gen hbytes
  have hmain : clientRepo.New t gen cli = (.error .alreadyExists, t) := by
    simp [clientRepo.New, newClientModel, hdec, tableInsert, hpresent, isAlreadyExistsErr,
      alreadyExistsCheckers, pgAlreadyExistsChecker]
  exact ⟨hmain, by rw [hmain]; exact hpresent, by rw [hmain]⟩

theorem C5_witness :
    clientRepo.New
        [⟨"dup", bcryptGenerateFromPassword [1] bcryptHashCost, "null", false⟩] [5]
        ⟨⟨"dup", ""⟩, Json.null, false⟩ =
      (.error .alreadyExists,
       [⟨"dup", bcryptGenerateFromPassword [1] bcryptHashCost, "null", false⟩]) ∧
    tableGet (clientRepo.New
        [⟨"dup", bcryptGenerateFromPassword [1] bcryptHashCost, "null", false⟩] [5]
        ⟨⟨"dup", ""⟩, Json.null, false⟩).2 "dup" =
      some ⟨"dup", bcryptGenerateFromPassword [1] bcryptHashCost, "null", false⟩ ∧
    ((clientRepo.New
        [⟨"dup", bcryptGenerateFromPassword [1] bcryptHashCost, "null", false⟩] [5]
        ⟨⟨"dup", ""⟩, Json.null, false⟩).2.countP fun r => r.ID == "dup") =
      (([⟨"dup", bcryptGenerateFromPassword [1] bcryptHashCost, "null", false⟩] :
        ClientTable).countP fun r => r.ID == "dup") :=
  C5_create_duplicate_id
    [⟨"dup", bcryptGenerateFromPassword [1] bcryptHashCost, "null", false⟩]
    ⟨⟨"dup", ""⟩, Json.null, false⟩ [5]
    ⟨"dup", bcryptGenerateFromPassword [1] bcryptHashCost, "null", false⟩
    (by decide) (by decide)

/-- C6: the batch Create (NewClientRepoFromClients) is all-or-nothing:
whenever the call reports an error the table is exactly what it was before
the call (full rollback, no partial inserts), and an item with an empty
secret anywhere in the batch forces an error. -/
theorem C6_batch_rollback (t : ClientTable) (clients : List Client) :
    ((NewClientRepoFromClients t clients).2.isSome = true →
      (NewClientRepoFromClients t clients).1 = t) ∧
    ((∃ c ∈ clients, c.Credentials.Secret = "") →
      (NewClientRepoFromClients t clients).2.isSome = true) := by
  constructor
  · intro h
    cases hb : batchInsertLoop t clients with
    | error e => simp [NewClientRepoFromClients, hb]
    | ok t2 =>
      simp [NewClientRepoFromClients, hb] at h
  · intro h
    obtain ⟨e, he⟩ := batchInsertLoop_error_of_empty_secret clients t h
    simp [NewClientRepoFromClients, he]

theorem C6_witness :
    (NewClientRepoFromClients ([] : ClientTable)
        [⟨⟨"c1", "AA=="⟩, Json.null, false⟩, ⟨⟨"c2", "AA=="⟩, Json.null, false⟩,
         ⟨⟨"c3", ""⟩, Json.null, false⟩, ⟨⟨"c4", "AA=="⟩, Json.null, false⟩,
         ⟨⟨"c5", "AA=="⟩, Json.null, false⟩]).1 = [] ∧
    (NewClientRepoFromClients ([] : ClientTable)
        [⟨⟨"c1", "AA=="⟩, Json.null, false⟩, ⟨⟨"c2", "AA=="⟩, Json.null, false⟩,
         ⟨⟨"c3", ""⟩, Json.null, false⟩, ⟨⟨"c4", "AA=="⟩, Json.null, false⟩,
         ⟨⟨"c5", "AA=="⟩, Json.null, false⟩]).2.isSome = true := by
  have h := C6_batch_rollback ([] : ClientTable)
    [⟨⟨"c1", "AA=="⟩, Json.null, false⟩, ⟨⟨"c2", "AA=="⟩, Json.null, false⟩,
     ⟨⟨"c3", ""⟩, Json.null, false⟩, ⟨⟨"c4", "AA=="⟩, Json.null, false⟩,
     ⟨⟨"c5", "AA=="⟩, Json.null, false⟩]
  have hsome := h.2 ⟨⟨⟨"c3", ""⟩, Json.null, false⟩,
    List.mem_cons_of_mem _ (List.mem_cons_of_mem _ (List.mem_cons_self _ _)), rfl⟩
  exact ⟨h.1 hsome, hsome⟩

/-- C7: Set fully replaces the connector_config table: a successful
Set(configs) commits with no error and a subsequent All() returns exactly
the supplied configs (and nothing from any earlier Set); and whenever any
step of Set fails, the table still holds the complete prior set.  The
supplied configs carry pairwise-distinct ids (the table's primary key) and
registered type tags. -/
theorem C7_set_replaces_table
    (registry : List String) (t : ConnectorTable) (cfgs : List ConnectorConfig)
    (hids : (cfgs.map ConnectorConfig.id).Nodup)
    (hreg : ∀ cfg ∈ cfgs, cfg.type ∈ registry) :
    ConnectorConfigRepo.Set t cfgs = (cfgs.map newConnectorConfigModel, none) ∧
    ConnectorConfigRepo.All registry (ConnectorConfigRepo.Set t cfgs).1 = .ok cfgs ∧
    (∀ (t2 : ConnectorTable) (cfgs2 : List ConnectorConfig),
      (ConnectorConfigRepo.Set t2 cfgs2).2.isSome = true →
      (ConnectorConfigRepo.Set t2 cfgs2).1 = t2) := by
  have hnodup : ((cfgs.map newConnectorConfigModel).map connectorConfigModel.ID).Nodup := by
    rw [List.map_map]
    exact hids
  have hins := insertAll_nodup (cfgs.map newConnectorConfigModel) []
    (fun m _ => rfl) hnodup
  have hset : ConnectorConfigRepo.Set t cfgs = (cfgs.map newConnectorConfigModel, none) := by
    simp [ConnectorConfigRepo.Set, hins]
  refine ⟨hset, ?_, ?_⟩
  · rw [hset]
    exact all_map_models registry cfgs hreg
  · intro t2 cfgs2 h
    cases hb : ConnectorConfigRepo.insertAll [] (cfgs2.map newConnectorConfigModel) with
    | error e => simp [ConnectorConfigRepo.Set, hb]
    | ok x =>
      simp [ConnectorConfigRepo.Set, hb] at h

theorem C7_witness :
    ConnectorConfigRepo.Set [(⟨"a", "X", "old"⟩ : connectorConfigModel)]
        [⟨"c", "X", Json.str "v"⟩] =
      ([newConnectorConfigModel ⟨"c", "X", Json.str "v"⟩], none) ∧
    ConnectorConfigRepo.All ["X"]
        (ConnectorConfigRepo.Set [(⟨"a", "X", "old"⟩ : connectorConfigModel)]
          [⟨"c", "X", Json.str "v"⟩]).1 =
      .ok [⟨"c", "X", Json.str "v"⟩] ∧
    (∀ (t2 : ConnectorTable) (cfgs2 : List ConnectorConfig),
      (ConnectorConfigRepo.Set t2 cfgs2).2.isSome = true →
      (ConnectorConfigRepo.Set t2 cfgs2).1 = t2) :=
  C7_set_replaces_table ["X"] [⟨"a", "X", "old"⟩] [⟨"c", "X", Json.str "v"⟩]
    (by decide)
    (fun cfg h => by
      rw [List.mem_singleton] at h
      subst h
      decide)

/-- C8 counterexample: with registry ["X"], the table
[(a, type X, config "x"), (b, type Z, config "x")] contains a row (b)
whose type tag has no registered constructor, yet All() fails with the
deserialization error of the earlier malformed row (a), not with
UnknownTypeError — so "fails with UnknownTypeError" does not hold of every
such table state. -/
theorem C8_counterexample :
    (∃ m ∈ [(⟨"a", "X", "x"⟩ : connectorConfigModel), ⟨"b", "Z", "x"⟩],
      m.type ∉ ["X"]) ∧
    ConnectorConfigRepo.All ["X"] [⟨"a", "X", "x"⟩, ⟨"b", "Z", "x"⟩] =
      .error .deserialization ∧
    DBErr.deserialization ≠ DBErr.unknownType :=
  ⟨⟨⟨"b", "Z", "x"⟩, by simp, by decide⟩, rfl, by decide⟩

/-- C8 (amended): a connector_config row whose type tag has no registered
constructor makes the whole call fail, returning no configs at all — never
skipping the bad row: All() fails with some error on every such table, and
with UnknownTypeError itself whenever the other rows' stored documents are
well-formed (an earlier row's deserialization failure may otherwise
surface first); Get for the unregistered row always fails with
UnknownTypeError. -/
theorem C8_unknown_type_fails_all
    (registry : List String) (t : ConnectorTable) :
    ((∃ m ∈ t, m.type ∉ registry) →
      ∃ e, ConnectorConfigRepo.All registry t = .error e) ∧
    ((∀ m ∈ t, rowParses m = true) → (∃ m ∈ t, m.type ∉ registry) →
      ConnectorConfigRepo.All registry t = .error .unknownType) ∧
    (∀ id m, ctableGet t id = some m → m.type ∉ registry →
      ConnectorConfigRepo.GetConnectorByID registry t id = .error .unknownType) := by
  refine ⟨?_, ?_, ?_⟩
  · induction t with
    | nil =>
      intro h
      simp at h
    | cons m rest ih =>
      intro h
      by_cases hm : m.type ∈ registry
      · have hcc : m.ConnectorConfig registry = unmarshalConnectorConfig m.type m.Config := by
          simp [connectorConfigModel.ConnectorConfig, NewConnectorConfigFromType, hm]
        cases hum : unmarshalConnectorConfig m.type m.Config with
        | error e => exact ⟨e, by simp [ConnectorConfigRepo.All, hcc, hum]⟩
        | ok cfg =>
          obtain ⟨c2, hmem, hc2⟩ := h
          have hc2rest : c2 ∈ rest := by
            rcases List.mem_cons.mp hmem with rfl | hr
            · exact absurd hm hc2
            · exact hr
          obtain ⟨e, he⟩ := ih ⟨c2, hc2rest, hc2⟩
          exact ⟨e, by simp [ConnectorConfigRepo.All, hcc, hum, he]⟩
      · exact ⟨.unknownType, by
          simp [ConnectorConfigRepo.All, connectorConfigModel.ConnectorConfig,
            NewConnectorConfigFromType, hm]⟩
  · induction t with
    | nil =>
      intro _ h
      simp at h
    | cons m rest ih =>
      intro hwf h
      by_cases hm : m.type ∈ registry
      · have hcc : m.ConnectorConfig registry = unmarshalConnectorConfig m.type m.Config := by
          simp [connectorConfigModel.ConnectorConfig, NewConnectorConfigFromType, hm]
        have hp : rowParses m = true := hwf m (by simp)
        cases hum : unmarshalConnectorConfig m.type m.Config with
        | error e =>
          rw [rowParses, hum] at hp
          simp at hp
        | ok cfg =>
          obtain ⟨c2, hmem, hc2⟩ := h
          have hc2rest : c2 ∈ rest := by
            rcases List.mem_cons.mp hmem with rfl | hr
            · exact absurd hm hc2
            · exact hr
          have hrest := ih (fun m2 hm2 => hwf m2 (List.mem_cons_of_mem _ hm2))
            ⟨c2, hc2rest, hc2⟩
          simp [ConnectorConfigRepo.All, hcc, hum, hrest]
      · simp [ConnectorConfigRepo.All, connectorConfigModel.ConnectorConfig,
          NewConnectorConfigFromType, hm]
  · intro id m hget hm
    simp [ConnectorConfigRepo.GetConnectorByID, hget,
      connectorConfigModel.ConnectorConfig, NewConnectorConfigFromType, hm]

theorem C8_witness :
    ConnectorConfigRepo.All ["X"]
        [newConnectorConfigModel ⟨"a", "X", Json.null⟩,
         newConnectorConfigModel ⟨"b", "Z", Json.null⟩] = .error .unknownType ∧
    ConnectorConfigRepo.GetConnectorByID ["X"]
        [newConnectorConfigModel ⟨"a", "X", Json.null⟩,
         newConnectorConfigModel ⟨"b", "Z", Json.null⟩] "b" = .error .unknownType := by
  have h := C8_unknown_type_fails_all ["X"]
    [newConnectorConfigModel ⟨"a", "X", Json.null⟩,
     newConnectorConfigModel ⟨"b", "Z", Json.null⟩]
  refine ⟨h.2.1 (by decide) ?_, h.2.2 "b" (newConnectorConfigModel ⟨"b", "Z", Json.null⟩)
    (by decide) (by decide)⟩
  exact ⟨newConnectorConfigModel ⟨"b", "Z", Json.null⟩, by simp, by decide⟩

/-- C9: client metadata round-trips losslessly through storage: whatever
row Create's serialization (newClientModel) produced for a client, reading
it back (clientModel.Client) reproduces the client's metadata document
exactly (together with its id and admin flag; the secret is not echoed). -/
theorem C9_metadata_roundtrip (cli : Client) (m : clientModel)
    (hmodel : newClientModel cli = .ok m) :
    m.Client = .ok ⟨⟨cli.Credentials.ID, ""⟩, cli.Metadata, cli.Admin⟩ := by
  unfold newClientModel at hmodel
  cases hdec : base64UrlDecode cli.Credentials.Secret with
  | none =>
    rw [hdec] at hmodel
    exact absurd hmodel (by simp)
  | some bs =>
    rw [hdec] at hmodel
    simp only [Except.ok.injEq] at hmodel
    subst hmodel
    simp [clientModel.Client, jsonParse_print]

theorem C9_witness :
    clientModel.Client
        ⟨"cid", bcryptGenerateFromPassword [0] bcryptHashCost,
         jsonPrint (Json.obj (.cons "uris"
            (.arr (.cons (.str "https://x/cb") (.cons (.str "a\"b\\c") .nil)))
            (.cons "n" (.num (-7)) (.cons "ok" (.bool true)
              (.cons "z" Json.null .nil))))), true⟩ =
      .ok ⟨⟨"cid", ""⟩,
        Json.obj (.cons "uris"
          (.arr (.cons (.str "https://x/cb") (.cons (.str "a\"b\\c") .nil)))
          (.cons "n" (.num (-7)) (.cons "ok" (.bool true)
            (.cons "z" Json.null .nil)))), true⟩ :=
  C9_metadata_roundtrip
    ⟨⟨"cid", "AA=="⟩,
     Json.obj (.cons "uris"
       (.arr (.cons (.str "https://x/cb") (.cons (.str "a\"b\\c") .nil)))
       (.cons "n" (.num (-7)) (.cons "ok" (.bool true) (.cons "z" Json.null .nil)))), true⟩
    ⟨"cid", bcryptGenerateFromPassword [0] bcryptHashCost,
     jsonPrint (Json.obj (.cons "uris"
       (.arr (.cons (.str "https://x/cb") (.cons (.str "a\"b\\c") .nil)))
       (.cons "n" (.num (-7)) (.cons "ok" (.bool true) (.cons "z" Json.null .nil))))), true⟩
    rfl

/-- C10: IsAdmin (clientRepo.IsDexAdmin) on an id not present in the table
returns (false, nil error): a missing client is indistinguishable from a
non-admin client at this interface, and no NotFoundError is raised. -/
theorem C10_isadmin_missing_id (t : ClientTable) (id : String)
    (habsent : tableGet t id = none) :
    clientRepo.IsDexAdmin t id = (false, none) := by
  simp [clientRepo.IsDexAdmin, habsent]

theorem C10_witness :
    clientRepo.IsDexAdmin
        [⟨"a", bcryptGenerateFromPassword [1] bcryptHashCost, "null", true⟩] "ghost" =
      (false, none) :=
  C10_isadmin_missing_id
    [⟨"a", bcryptGenerateFromPassword [1] bcryptHashCost, "null", true⟩] "ghost"
    (by decide)
